import Mathlib

/-!
Verification development for the 2048-o1js repository (src/src/game2048.ts).

The game state is a 4 by 4 grid of 5-bit exponent codes together with an
ended flag and a 31-bit score, persisted as a single packed field element.
We model o1js `UInt32` values as `Nat` (all arithmetic in the engine stays
far below 2^32 on the domains the claims quantify over), `Field` elements
as `Nat` (the packed state occupies 112 bits, far below the field modulus),
`Bool` circuit values as `Bool`, and assertion failures as `Option.none`.
Boards are flat row-major lists of 16 cells: entry `i * 4 + j` is row `i`,
column `j`, matching `this.board[i][j]` in the source.
-/

/-- Little-endian bit expansion, embedding o1js `Field.toBits(k)`:
bit `i` of the result is the coefficient of `2^i`. -/
def toBits (k n : Nat) : List Bool :=
  (List.range k).map n.testBit

/-- Little-endian bit packing, embedding o1js `Field.fromBits`:
the value is the weighted sum of `bits[i] * 2^i`. -/
def fromBits : List Bool → Nat
  | [] => 0
  | b :: rest => (if b then 1 else 0) + 2 * fromBits rest

/-- Embeds `Board.numberToBits` (game2048.ts lines 75-82): the loop runs
`i = bitCount-1` down to `0`, pushing `num >= 2^i` and replacing `num` by
`num mod 2^i`; each loop iteration is one unfolding of the recursion. -/
def numberToBits : Nat → Nat → List Bool
  | _, 0 => []
  | num, k + 1 => decide (2 ^ k ≤ num) :: numberToBits (num % 2 ^ k) k

/-- Embeds `Board.combineBits` (game2048.ts lines 61-73): the loop adds
`2^i` whenever `bits[bitCount-i-1]` is set, so the head of the list is the
most significant of the `bitCount` bits consumed. -/
def combineBits : List Bool → Nat → Nat
  | _, 0 => 0
  | [], _ + 1 => 0
  | b :: rest, k + 1 => (if b then 2 ^ k else 0) + combineBits rest k

/-- The decoded game state held by the `Board` class of game2048.ts. -/
structure Board where
  cells : List Nat
  ended : Bool
  score : Nat
deriving DecidableEq

/-- Embeds the `Board` constructor (game2048.ts lines 44-59): split the
packed field element into 113 little-endian bits, read 16 groups of 5 bits
through `combineBits`, then the ended bit at index 80, then 31 score bits
starting at index 81. -/
def decodeBoard (f : Nat) : Board :=
  let bits := toBits 113 f
  { cells := (List.range 16).map fun pos => combineBits ((bits.drop (pos * 5)).take 5) 5
    ended := bits.getD 80 false
    score := combineBits (bits.drop 81) 31 }

/-- Embeds `Board.serialize` (game2048.ts lines 101-117): concatenate the
sixteen 5-bit cell groups, the ended bit, and the 31 score bits, then pack
with `Field.fromBits`. -/
def Board.serialize (b : Board) : Nat :=
  fromBits ((b.cells.map fun v => numberToBits v 5).flatten ++ (b.ended :: numberToBits b.score 31))

/-- Read cell (i, j) of a row-major flat board. -/
def getCell (cells : List Nat) (i j : Nat) : Nat :=
  cells.getD (i * 4 + j) 0

/-- Write cell (i, j) of a row-major flat board. -/
def setCell (cells : List Nat) (i j : Nat) (v : Nat) : List Nat :=
  cells.set (i * 4 + j) v

/-- Accumulator for `Board.pow2`: after `k` loop iterations the sum covers
exponents `1` to `k`. -/
def pow2Aux (num : Nat) : Nat → Nat
  | 0 => 0
  | k + 1 => pow2Aux num k + (if num = k + 1 then 2 ^ (k + 1) else 0)

/-- Embeds `Board.pow2` (game2048.ts lines 85-99): a branch-free table of
`2^i` for `i = 1` to `17` (the comment in the source says 17 is the largest
reachable code); any other argument yields `0`. -/
def pow2 (num : Nat) : Nat :=
  pow2Aux num 17

/-- Embeds `Board.hasNextMove` (game2048.ts lines 119-149): true iff some
cell is empty, or two vertically adjacent cells are equal, or two
horizontally adjacent cells are equal. -/
def hasNextMove (cells : List Nat) : Bool :=
  let h0 := (List.range 4).foldl
    (fun h i => (List.range 4).foldl (fun h j => h || decide (getCell cells i j = 0)) h) false
  let h1 := (List.range 4).foldl
    (fun h j => (List.range 3).foldl
      (fun h i => h || decide (getCell cells i j = getCell cells (i + 1) j)) h) h0
  (List.range 4).foldl
    (fun h i => (List.range 3).foldl
      (fun h j => h || decide (getCell cells i j = getCell cells i (j + 1))) h) h1

/-- Embeds `Board.moveTile` (game2048.ts lines 174-217), one merge step on
the pair of positions `c` (current) and `a` (adjacent neighbor). The score
is updated first from the old neighbor value, then the neighbor cell is
written, then the current cell (reading it again, as the source does),
and the returned flag is the negation of "the neighbor was empty". -/
def moveTile (cells : List Nat) (score : Nat) (c a : Nat × Nat) (breakLoop : Bool) :
    List Nat × Nat × Bool :=
  let curr := getCell cells c.1 c.2
  let adj := getCell cells a.1 a.2
  let currEmpty : Bool := decide (curr = 0)
  let adjEmpty : Bool := decide (adj = 0)
  let eq : Bool := decide (curr = adj)
  let score1 := score + (if eq && !currEmpty && !breakLoop then pow2 (adj + 1) else 0)
  let newAdj := if currEmpty || breakLoop then adj
    else if adjEmpty then curr
    else if eq then adj + 1
    else adj
  let cells1 := setCell cells a.1 a.2 newAdj
  let currNow := getCell cells1 c.1 c.2
  let newCurr := if currEmpty || breakLoop then currNow
    else if adjEmpty || eq then 0
    else currNow
  (setCell cells1 c.1 c.2 newCurr, score1, !adjEmpty)

/-- One iteration of the inner `m`-loop of a move: apply `moveTile` to the
next (current, neighbor) pair, threading the board, score and breakLoop
flag. -/
def moveStep (acc : List Nat × Nat × Bool) (p : (Nat × Nat) × (Nat × Nat)) :
    List Nat × Nat × Bool :=
  moveTile acc.1 acc.2.1 p.1 p.2 acc.2.2

/-- Run one inner `m`-loop of a move: thread the breakLoop flag through the
listed (current, neighbor) pairs, starting from false as the source resets
it before each such loop; the final flag value is dropped. -/
def runLine (cs : List Nat × Nat) (pairs : List ((Nat × Nat) × (Nat × Nat))) :
    List Nat × Nat :=
  ((pairs.foldl moveStep (cs.1, cs.2, false)).1, (pairs.foldl moveStep (cs.1, cs.2, false)).2.1)

/-- The (current, neighbor) pairs of the inner loop of `Board.moveUp` for
column `j` and start row `i`: `m` runs from `i` down to `1`, moving
`(m, j)` toward `(m-1, j)`. -/
def upPairs (j i : Nat) : List ((Nat × Nat) × (Nat × Nat)) :=
  (List.range i).map fun t => ((i - t, j), (i - t - 1, j))

/-- The pairs of the inner loop of `Board.moveDown` for column `j` and
start row `i`: `m` runs from `i` up to `2`, moving `(m, j)` toward
`(m+1, j)`. -/
def downPairs (j i : Nat) : List ((Nat × Nat) × (Nat × Nat)) :=
  (List.range (3 - i)).map fun u => ((i + u, j), (i + u + 1, j))

/-- The pairs of the inner loop of `Board.moveLeft` for row `i` and start
column `j`: `m` runs from `j` down to `1`, moving `(i, m)` toward
`(i, m-1)`. -/
def leftPairs (i j : Nat) : List ((Nat × Nat) × (Nat × Nat)) :=
  (List.range j).map fun t => ((i, j - t), (i, j - t - 1))

/-- The pairs of the inner loop of `Board.moveRight` for row `i` and start
column `j`: `m` runs from `j` up to `2`, moving `(i, m)` toward
`(i, m+1)`. -/
def rightPairs (i j : Nat) : List ((Nat × Nat) × (Nat × Nat)) :=
  (List.range (3 - j)).map fun u => ((i, j + u), (i, j + u + 1))

/-- The cell-and-score sweep of `Board.moveUp` (game2048.ts lines 219-234):
for each column `j`, for `i = 1, 2, 3`, run the inner loop. -/
def moveUpCS (cs : List Nat × Nat) : List Nat × Nat :=
  (List.range 4).foldl
    (fun cs j => (List.range 3).foldl (fun cs t => runLine cs (upPairs j (t + 1))) cs) cs

/-- The cell-and-score sweep of `Board.moveDown` (game2048.ts lines
236-251): for each column `j`, for `i = 2, 1, 0`, run the inner loop. -/
def moveDownCS (cs : List Nat × Nat) : List Nat × Nat :=
  (List.range 4).foldl
    (fun cs j => (List.range 3).foldl (fun cs t => runLine cs (downPairs j (2 - t))) cs) cs

/-- The cell-and-score sweep of `Board.moveLeft` (game2048.ts lines
253-268): for each row `i`, for `j = 1, 2, 3`, run the inner loop. -/
def moveLeftCS (cs : List Nat × Nat) : List Nat × Nat :=
  (List.range 4).foldl
    (fun cs i => (List.range 3).foldl (fun cs t => runLine cs (leftPairs i (t + 1))) cs) cs

/-- The cell-and-score sweep of `Board.moveRight` (game2048.ts lines
270-285): for each row `i`, for `j = 2, 1, 0`, run the inner loop. -/
def moveRightCS (cs : List Nat × Nat) : List Nat × Nat :=
  (List.range 4).foldl
    (fun cs i => (List.range 3).foldl (fun cs t => runLine cs (rightPairs i (2 - t))) cs) cs

/-- Embeds `Board.moveUp`: sweep, then recompute the ended flag as the
negation of `hasNextMove`. -/
def Board.moveUp (b : Board) : Board :=
  let cs := moveUpCS (b.cells, b.score)
  { cells := cs.1, ended := !hasNextMove cs.1, score := cs.2 }

/-- Embeds `Board.moveDown`. -/
def Board.moveDown (b : Board) : Board :=
  let cs := moveDownCS (b.cells, b.score)
  { cells := cs.1, ended := !hasNextMove cs.1, score := cs.2 }

/-- Embeds `Board.moveLeft`. -/
def Board.moveLeft (b : Board) : Board :=
  let cs := moveLeftCS (b.cells, b.score)
  { cells := cs.1, ended := !hasNextMove cs.1, score := cs.2 }

/-- Embeds `Board.moveRight`. -/
def Board.moveRight (b : Board) : Board :=
  let cs := moveRightCS (b.cells, b.score)
  { cells := cs.1, ended := !hasNextMove cs.1, score := cs.2 }

/-- The cell-update loop of `Board.newTile` (game2048.ts lines 154-169):
every cell is uniformly overwritten with a conditional select between the
placed code (when this is the targeted cell) and its current value. -/
def placeFold (r c num : Nat) (cells : List Nat) : List Nat :=
  (List.range 4).foldl
    (fun cs i => (List.range 4).foldl
      (fun cs j => setCell cs i j (if r = i ∧ c = j then num else getCell cs i j)) cs)
    cells

/-- The board state after a successful `Board.newTile`: the cell-update
loop has run and the ended flag has been recomputed from `hasNextMove`;
the score is untouched. -/
def placedBoard (b : Board) (r c num : Nat) : Board :=
  { cells := placeFold r c num b.cells
    ended := !hasNextMove (placeFold r c num b.cells)
    score := b.score }

/-- Embeds `Board.newTile` (game2048.ts lines 151-172): assert the placed
code is positive, assert that the targeted cell is empty (each cell checks
`toUpdate implies cell = 0`), run the cell-update loop, then recompute the
ended flag. A failed assertion aborts the whole transition, modelled as
`none`. -/
def newTile (b : Board) (r c : Nat) (num : Nat) : Option Board :=
  if 0 < num then
    if ∀ i ∈ List.range 4, ∀ j ∈ List.range 4, r = i ∧ c = j → getCell b.cells i j = 0 then
      some (placedBoard b r c num)
    else none
  else none

/-- The persisted on-chain state of the `Game2048` smart contract
(game2048.ts lines 336-342): the packed board field element, the gameDone
flag, and the registered player. Public keys are modelled abstractly as
naturals; only equality of keys matters to the contract logic. -/
structure Game2048 where
  boardField : Nat
  gameDone : Bool
  player : Nat
deriving DecidableEq

/-- Embeds `Game2048.assertSignature` (game2048.ts lines 365-389): assert
the game is not done, assert the signature verifies (the o1js
`signature.verify(pubkey, [action, value])` call is abstracted by the
boolean `sigOk`), assert the requester is the registered player, then pin
and decode the board. Any failed assertion rejects the whole call,
modelled as `none`. -/
def Game2048.assertSignature (s : Game2048) (pubkey : Nat) (sigOk : Bool) : Option Board :=
  if s.gameDone = false then
    if sigOk then
      if pubkey = s.player then some (decodeBoard s.boardField) else none
    else none
  else none

/-- Embeds `Game2048.startGame` (game2048.ts lines 350-358): requires the
current game to be done, then registers the player, clears the done flag
and resets the board field element to zero. -/
def Game2048.startGame (s : Game2048) (player : Nat) : Option Game2048 :=
  if s.gameDone = true then
    some { boardField := 0, gameDone := false, player := player }
  else none

/-- Embeds `Game2048.addTile` (game2048.ts lines 391-408): authorize, then
place a tile with the fixed magnitude code `UInt32.one` at the requested
cell, re-serialize the board and store the negated `hasNextMove` flag via
`setGameDone`. -/
def Game2048.addTile (s : Game2048) (pubkey : Nat) (sigOk : Bool) (r c : Nat) :
    Option Game2048 :=
  (s.assertSignature pubkey sigOk).bind fun board =>
    (newTile board r c 1).map fun b' =>
      { s with boardField := b'.serialize, gameDone := !hasNextMove b'.cells }

/-- Embeds `Game2048.moveUp` (game2048.ts lines 410-425). -/
def Game2048.moveUp (s : Game2048) (pubkey : Nat) (sigOk : Bool) : Option Game2048 :=
  (s.assertSignature pubkey sigOk).map fun board =>
    { s with boardField := (Board.moveUp board).serialize
             gameDone := !hasNextMove (Board.moveUp board).cells }

/-- Embeds `Game2048.moveDown` (game2048.ts lines 427-442). -/
def Game2048.moveDown (s : Game2048) (pubkey : Nat) (sigOk : Bool) : Option Game2048 :=
  (s.assertSignature pubkey sigOk).map fun board =>
    { s with boardField := (Board.moveDown board).serialize
             gameDone := !hasNextMove (Board.moveDown board).cells }

/-- Embeds `Game2048.moveLeft` (game2048.ts lines 444-459). -/
def Game2048.moveLeft (s : Game2048) (pubkey : Nat) (sigOk : Bool) : Option Game2048 :=
  (s.assertSignature pubkey sigOk).map fun board =>
    { s with boardField := (Board.moveLeft board).serialize
             gameDone := !hasNextMove (Board.moveLeft board).cells }

/-- Embeds `Game2048.moveRight` (game2048.ts lines 461-476). -/
def Game2048.moveRight (s : Game2048) (pubkey : Nat) (sigOk : Bool) : Option Game2048 :=
  (s.assertSignature pubkey sigOk).map fun board =>
    { s with boardField := (Board.moveRight board).serialize
             gameDone := !hasNextMove (Board.moveRight board).cells }

/-- Embeds `Game2048.endGame` (game2048.ts lines 478-490): authorize (the
signature covers the action pair `(3, 0)`), then set gameDone to true
unconditionally. The decoded board is not used. -/
def Game2048.endGame (s : Game2048) (pubkey : Nat) (sigOk : Bool) : Option Game2048 :=
  (s.assertSignature pubkey sigOk).map fun _ => { s with gameDone := true }


/-! ### Bit-codec lemmas -/

theorem numberToBits_length (num k : Nat) : (numberToBits num k).length = k := by
  induction k generalizing num with
  | zero => rfl
  | succ k ih => simp [numberToBits, ih]

theorem combineBits_zero (xs : List Bool) : combineBits xs 0 = 0 := by
  cases xs <;> rfl

theorem combineBits_lt (k : Nat) : ∀ xs, combineBits xs k < 2 ^ k := by
  induction k with
  | zero => intro xs; simp [combineBits_zero]
  | succ k ih =>
    intro xs
    cases xs with
    | nil => simp [combineBits]
    | cons b rest =>
      have h := ih rest
      have h2 : 2 ^ (k + 1) = 2 ^ k + 2 ^ k := by ring
      have h3 : (if b then 2 ^ k else 0) ≤ 2 ^ k := by split <;> omega
      simp only [combineBits]
      omega

theorem combineBits_numberToBits (k : Nat) :
    ∀ num, num < 2 ^ k → combineBits (numberToBits num k) k = num := by
  induction k with
  | zero =>
    intro num h
    simp only [pow_zero, Nat.lt_one_iff] at h
    subst h; rfl
  | succ k ih =>
    intro num h
    have hpos : 0 < 2 ^ k := Nat.pos_pow_of_pos _ (by omega)
    have h2 : 2 ^ (k + 1) = 2 ^ k + 2 ^ k := by ring
    simp only [numberToBits, combineBits]
    rw [ih (num % 2 ^ k) (Nat.mod_lt _ hpos)]
    by_cases hb : 2 ^ k ≤ num
    · have h1 : num % 2 ^ k = num - 2 ^ k := by
        rw [Nat.mod_eq_sub_mod hb, Nat.mod_eq_of_lt (by omega)]
      rw [decide_eq_true hb]
      simp only [if_pos]
      omega
    · have h1 : num % 2 ^ k = num := Nat.mod_eq_of_lt (by omega)
      rw [decide_eq_false hb]
      simp [h1]

theorem combineBits_append (k : Nat) :
    ∀ xs ys : List Bool, k ≤ xs.length → combineBits (xs ++ ys) k = combineBits xs k := by
  induction k with
  | zero => intro xs ys _; simp [combineBits_zero]
  | succ k ih =>
    intro xs ys h
    cases xs with
    | nil => simp at h
    | cons b rest =>
      simp only [List.cons_append, combineBits, List.append_eq]
      rw [ih rest ys (by simpa using h)]

theorem fromBits_lt (xs : List Bool) : fromBits xs < 2 ^ xs.length := by
  induction xs with
  | nil => simp [fromBits]
  | cons b rest ih =>
    have h2 : 2 ^ (rest.length + 1) = 2 * 2 ^ rest.length := by ring
    simp only [fromBits, List.length_cons]
    split <;> omega

theorem testBit_fromBits (xs : List Bool) : ∀ i, (fromBits xs).testBit i = xs.getD i false := by
  induction xs with
  | nil => intro i; simp [fromBits]
  | cons b rest ih =>
    intro i
    cases i with
    | zero =>
      simp only [fromBits, Nat.testBit_zero, List.getD_cons_zero]
      cases b <;> simp <;> omega
    | succ i =>
      have hdiv : ((if b then 1 else 0) + 2 * fromBits rest) / 2 = fromBits rest := by
        cases b <;> simp <;> omega
      simp only [fromBits, Nat.testBit_add_one, hdiv, ih, List.getD_cons_succ]

theorem toBits_fromBits (xs : List Bool) (k : Nat) (h : xs.length ≤ k) :
    toBits k (fromBits xs) = xs ++ List.replicate (k - xs.length) false := by
  apply List.ext_getElem
  · simp [toBits]; omega
  · intro i h1 h2
    simp only [toBits, List.getElem_map, List.getElem_range]
    rw [testBit_fromBits]
    by_cases hi : i < xs.length
    · rw [List.getElem_append_left hi]
      exact List.getD_eq_getElem _ _ hi
    · rw [List.getElem_append_right (show xs.length ≤ i by omega), List.getElem_replicate]
      exact List.getD_eq_default _ _ (by omega)

theorem flatten_nb_length (cs : List Nat) :
    ((cs.map fun v => numberToBits v 5).flatten).length = 5 * cs.length := by
  induction cs with
  | nil => rfl
  | cons v t ih =>
    simp only [List.map_cons, List.flatten_cons, List.length_append, numberToBits_length, ih,
      List.length_cons]
    ring

theorem slice_flatten (cs : List Nat) :
    ∀ pos (rest : List Bool), pos < cs.length →
      (((cs.map fun v => numberToBits v 5).flatten ++ rest).drop (pos * 5)).take 5
        = numberToBits (cs.getD pos 0) 5 := by
  induction cs with
  | nil => intro pos rest h; simp at h
  | cons v t ih =>
    intro pos rest h
    cases pos with
    | zero =>
      simp only [List.map_cons, List.flatten_cons, List.append_assoc, Nat.zero_mul,
        List.drop_zero, List.getD_cons_zero]
      exact List.take_left' (numberToBits_length v 5)
    | succ pos =>
      have hlen : (numberToBits v 5).length = 5 := numberToBits_length v 5
      simp only [List.map_cons, List.flatten_cons, List.append_assoc, List.getD_cons_succ]
      rw [show (pos + 1) * 5 = 5 + pos * 5 by ring, ← List.drop_drop, List.drop_left' hlen]
      exact ih pos rest (by simpa using h)

theorem map_range_getD (xs : List Nat) (n : Nat) (h : xs.length = n) :
    (List.range n).map (fun i => xs.getD i 0) = xs := by
  apply List.ext_getElem
  · simp [h]
  · intro i h1 h2
    simp only [List.getElem_map, List.getElem_range]
    exact List.getD_eq_getElem _ _ (by omega)

theorem serialize_bits (b : Board) (hlen : b.cells.length = 16) :
    toBits 113 b.serialize
      = (b.cells.map fun v => numberToBits v 5).flatten
          ++ (b.ended :: numberToBits b.score 31) ++ List.replicate 1 false := by
  unfold Board.serialize
  have hl : ((b.cells.map fun v => numberToBits v 5).flatten
      ++ (b.ended :: numberToBits b.score 31)).length = 112 := by
    rw [List.length_append, flatten_nb_length, hlen, List.length_cons, numberToBits_length]
  rw [toBits_fromBits _ _ (by omega), hl]

theorem decode_serialize_cells (b : Board) (hlen : b.cells.length = 16)
    (hc : ∀ v ∈ b.cells, v < 32) : (decodeBoard b.serialize).cells = b.cells := by
  have hd : (decodeBoard b.serialize).cells
      = (List.range 16).map fun pos =>
          combineBits (((toBits 113 b.serialize).drop (pos * 5)).take 5) 5 := rfl
  rw [hd, serialize_bits b hlen]
  have hcong : ∀ pos ∈ List.range 16,
      combineBits ((((b.cells.map fun v => numberToBits v 5).flatten
          ++ (b.ended :: numberToBits b.score 31)
          ++ List.replicate 1 false).drop (pos * 5)).take 5) 5
        = b.cells.getD pos 0 := by
    intro pos hpos
    have hp : pos < b.cells.length := by rw [hlen]; exact List.mem_range.mp hpos
    rw [List.append_assoc, slice_flatten b.cells pos _ hp]
    have hm : b.cells.getD pos 0 ∈ b.cells := by
      rw [List.getD_eq_getElem _ _ hp]
      exact List.getElem_mem _
    exact combineBits_numberToBits 5 _ (hc _ hm)
  rw [List.map_congr_left hcong, map_range_getD b.cells 16 hlen]

theorem decode_serialize_ended (b : Board) (hlen : b.cells.length = 16) :
    (decodeBoard b.serialize).ended = b.ended := by
  have hd : (decodeBoard b.serialize).ended = (toBits 113 b.serialize).getD 80 false := rfl
  have hA : ((b.cells.map fun v => numberToBits v 5).flatten).length = 80 := by
    rw [flatten_nb_length, hlen]
  rw [hd, serialize_bits b hlen, List.append_assoc]
  rw [List.getD_append_right _ _ _ _ (by rw [hA]), hA]
  simp

theorem decode_serialize_score (b : Board) (hlen : b.cells.length = 16)
    (hs : b.score < 2 ^ 31) : (decodeBoard b.serialize).score = b.score := by
  have hd : (decodeBoard b.serialize).score
      = combineBits ((toBits 113 b.serialize).drop 81) 31 := rfl
  have hA : ((b.cells.map fun v => numberToBits v 5).flatten).length = 80 := by
    rw [flatten_nb_length, hlen]
  rw [hd, serialize_bits b hlen, List.append_assoc]
  rw [show (81 : Nat) = 80 + 1 from rfl, ← List.drop_drop, List.drop_left' hA]
  simp only [List.cons_append, List.drop_succ_cons, List.drop_zero]
  rw [combineBits_append 31 _ _ (by rw [numberToBits_length])]
  exact combineBits_numberToBits 31 _ hs

theorem decodeBoard_cells_length (f : Nat) : (decodeBoard f).cells.length = 16 := by
  simp [decodeBoard]

theorem decodeBoard_cells_lt (f : Nat) : ∀ v ∈ (decodeBoard f).cells, v < 32 := by
  intro v hv
  simp only [decodeBoard, List.mem_map] at hv
  obtain ⟨pos, _, hev⟩ := hv
  rw [← hev]
  exact combineBits_lt 5 _

theorem decodeBoard_score_lt (f : Nat) : (decodeBoard f).score < 2 ^ 31 :=
  combineBits_lt 31 _

/-- C1: for every game state whose 16 cell exponent codes are each at most
17, whose ended flag is a boolean, and whose score is below 2^31, decoding
the serialized packed field element (the `Board` constructor applied to
`Board.serialize`) yields back exactly the same board cells, ended flag
and score. -/
theorem decode_encode_roundtrip (b : Board) (hlen : b.cells.length = 16)
    (hcells : ∀ v ∈ b.cells, v ≤ 17) (hscore : b.score < 2 ^ 31) :
    decodeBoard b.serialize = b := by
  have hc : ∀ v ∈ b.cells, v < 32 := fun v hv => by have := hcells v hv; omega
  have h1 := decode_serialize_cells b hlen hc
  have h2 := decode_serialize_ended b hlen
  have h3 := decode_serialize_score b hlen hscore
  have hsplit : decodeBoard b.serialize
      = ⟨(decodeBoard b.serialize).cells, (decodeBoard b.serialize).ended,
          (decodeBoard b.serialize).score⟩ := rfl
  rw [hsplit, h1, h2, h3]

/-- Witness for C1 at a concrete state: all hypotheses hold and the
round trip is exact. -/
theorem decode_encode_roundtrip_witness :
    (([0, 1, 2, 3, 17, 5, 6, 7, 8, 9, 10, 11, 12, 13, 14, 15] : List Nat).length = 16
        ∧ (∀ v ∈ ([0, 1, 2, 3, 17, 5, 6, 7, 8, 9, 10, 11, 12, 13, 14, 15] : List Nat), v ≤ 17)
        ∧ 123456789 < 2 ^ 31)
      ∧ decodeBoard
          (Board.serialize ⟨[0, 1, 2, 3, 17, 5, 6, 7, 8, 9, 10, 11, 12, 13, 14, 15], true, 123456789⟩)
        = ⟨[0, 1, 2, 3, 17, 5, 6, 7, 8, 9, 10, 11, 12, 13, 14, 15], true, 123456789⟩ :=
  ⟨⟨by decide, by decide, by decide⟩,
    decode_encode_roundtrip
      ⟨[0, 1, 2, 3, 17, 5, 6, 7, 8, 9, 10, 11, 12, 13, 14, 15], true, 123456789⟩
      (by decide) (by decide) (by decide)⟩

/-! ### Move-engine lemmas -/

theorem getD_set_self (l : List Nat) (n v : Nat) (h : n < l.length) :
    (l.set n v).getD n 0 = v := by
  rw [List.getD_eq_getElem?_getD, List.getElem?_set_self h]
  rfl

theorem getD_set_ne (l : List Nat) (m n v : Nat) (h : m ≠ n) :
    (l.set m v).getD n 0 = l.getD n 0 := by
  rw [List.getD_eq_getElem?_getD, List.getElem?_set_ne h, ← List.getD_eq_getElem?_getD]

theorem setCell_length (cells : List Nat) (i j v : Nat) :
    (setCell cells i j v).length = cells.length :=
  List.length_set cells _ v

theorem getCell_setCell_self {cells : List Nat} {i j : Nat} (v : Nat)
    (h : i * 4 + j < cells.length) : getCell (setCell cells i j v) i j = v :=
  getD_set_self cells _ v h

theorem getCell_setCell_ne {cells : List Nat} {i j i' j' : Nat} (v : Nat)
    (h : i * 4 + j ≠ i' * 4 + j') :
    getCell (setCell cells i j v) i' j' = getCell cells i' j' :=
  getD_set_ne cells _ _ v h

theorem pow2Aux_eq (num : Nat) : ∀ k, pow2Aux num k = if 1 ≤ num ∧ num ≤ k then 2 ^ num else 0 := by
  intro k
  induction k with
  | zero =>
    simp only [pow2Aux]
    split
    · omega
    · rfl
  | succ k ih =>
    simp only [pow2Aux, ih]
    by_cases h2 : num = k + 1
    · subst h2
      simp [show ¬(1 ≤ k + 1 ∧ k + 1 ≤ k) from by omega,
        show 1 ≤ k + 1 ∧ k + 1 ≤ k + 1 from by omega]
    · rw [if_neg h2]
      by_cases h1 : 1 ≤ num ∧ num ≤ k
      · rw [if_pos h1, if_pos (by omega)]
        omega
      · rw [if_neg h1, if_neg (by omega)]

theorem pow2_eq (num : Nat) : pow2 num = if 1 ≤ num ∧ num ≤ 17 then 2 ^ num else 0 :=
  pow2Aux_eq num 17

theorem moveTile_spec (cells : List Nat) (score : Nat) (c a : Nat × Nat) (brk : Bool)
    (hc : c.1 * 4 + c.2 < cells.length) (ha : a.1 * 4 + a.2 < cells.length)
    (hne : c.1 * 4 + c.2 ≠ a.1 * 4 + a.2) :
    (moveTile cells score c a brk).2.1
        = score + (if getCell cells c.1 c.2 = getCell cells a.1 a.2
              ∧ getCell cells c.1 c.2 ≠ 0 ∧ brk = false
            then pow2 (getCell cells a.1 a.2 + 1) else 0)
      ∧ (moveTile cells score c a brk).2.2 = !decide (getCell cells a.1 a.2 = 0)
      ∧ getCell (moveTile cells score c a brk).1 a.1 a.2
          = (if getCell cells c.1 c.2 = 0 ∨ brk = true then getCell cells a.1 a.2
            else if getCell cells a.1 a.2 = 0 then getCell cells c.1 c.2
            else if getCell cells c.1 c.2 = getCell cells a.1 a.2
              then getCell cells a.1 a.2 + 1
            else getCell cells a.1 a.2)
      ∧ getCell (moveTile cells score c a brk).1 c.1 c.2
          = (if getCell cells c.1 c.2 = 0 ∨ brk = true then getCell cells c.1 c.2
            else if getCell cells a.1 a.2 = 0 ∨ getCell cells c.1 c.2 = getCell cells a.1 a.2
              then 0
            else getCell cells c.1 c.2)
      ∧ (moveTile cells score c a brk).1.length = cells.length := by
  have key3 : ∀ X, getCell (setCell cells a.1 a.2 X) c.1 c.2 = getCell cells c.1 c.2 :=
    fun X => getCell_setCell_ne X (Ne.symm hne)
  have key1 : ∀ X Y, getCell (setCell (setCell cells a.1 a.2 X) c.1 c.2 Y) a.1 a.2 = X := by
    intro X Y
    rw [getCell_setCell_ne Y hne]
    exact getCell_setCell_self X ha
  have key2 : ∀ X Y, getCell (setCell (setCell cells a.1 a.2 X) c.1 c.2 Y) c.1 c.2 = Y := by
    intro X Y
    apply getCell_setCell_self
    rw [setCell_length]
    exact hc
  have keylen : ∀ X Y, (setCell (setCell cells a.1 a.2 X) c.1 c.2 Y).length = cells.length := by
    intro X Y
    rw [setCell_length, setCell_length]
  simp only [moveTile, key3, key1, key2, keylen]
  by_cases h1 : getCell cells c.1 c.2 = 0 <;> cases brk <;>
    by_cases h3 : getCell cells a.1 a.2 = 0 <;>
    by_cases h4 : getCell cells c.1 c.2 = getCell cells a.1 a.2 <;>
    simp [h1, h3, h4]

/-- C2 counterexample: one merge step on two equal cells of code 17
(current at row 1 col 0, neighbor at row 0 col 0, suppress flag false)
performs the merge (the neighbor becomes 18) but adds 0 to the score,
because the pow2 table of the source only supports exponents 1 to 17;
the claim demands an increase of exactly 2^(17+1). -/
theorem moveTile_merge_score_counterexample :
    getCell [17, 0, 0, 0, 17, 0, 0, 0, 0, 0, 0, 0, 0, 0, 0, 0] 1 0 = 17
      ∧ getCell [17, 0, 0, 0, 17, 0, 0, 0, 0, 0, 0, 0, 0, 0, 0, 0] 0 0 = 17
      ∧ getCell
          (moveTile [17, 0, 0, 0, 17, 0, 0, 0, 0, 0, 0, 0, 0, 0, 0, 0] 5 (1, 0) (0, 0) false).1
          0 0 = 18
      ∧ (moveTile [17, 0, 0, 0, 17, 0, 0, 0, 0, 0, 0, 0, 0, 0, 0, 0] 5 (1, 0) (0, 0) false).2.1
          = 5
      ∧ (5 : Nat) ≠ 5 + 2 ^ (17 + 1) := by
  decide

/-- C2 (amended): for every pair of cells and every suppress-flag value,
one merge step behaves as: if current is empty or suppress is set, both
cells and the score are unchanged; else if the neighbor is empty, the
neighbor becomes current's code and current becomes 0 with the score
unchanged; else if current equals the neighbor, the neighbor becomes
neighbor+1, current becomes 0, and the score increases by 2^(oldNeighbor+1)
when oldNeighbor+1 is at most 17 and by 0 otherwise (the pow2 table stops
at exponent 17); else both cells and the score are unchanged. -/
theorem moveTile_cases (cells : List Nat) (score : Nat) (c a : Nat × Nat) (brk : Bool)
    (hlen : cells.length = 16) (hc1 : c.1 < 4) (hc2 : c.2 < 4)
    (ha1 : a.1 < 4) (ha2 : a.2 < 4) (hne : (c.1, c.2) ≠ (a.1, a.2)) :
    (getCell cells c.1 c.2 = 0 ∨ brk = true →
        getCell (moveTile cells score c a brk).1 c.1 c.2 = getCell cells c.1 c.2
        ∧ getCell (moveTile cells score c a brk).1 a.1 a.2 = getCell cells a.1 a.2
        ∧ (moveTile cells score c a brk).2.1 = score)
    ∧ (getCell cells c.1 c.2 ≠ 0 → brk = false → getCell cells a.1 a.2 = 0 →
        getCell (moveTile cells score c a brk).1 a.1 a.2 = getCell cells c.1 c.2
        ∧ getCell (moveTile cells score c a brk).1 c.1 c.2 = 0
        ∧ (moveTile cells score c a brk).2.1 = score)
    ∧ (getCell cells c.1 c.2 ≠ 0 → brk = false → getCell cells a.1 a.2 ≠ 0 →
        getCell cells c.1 c.2 = getCell cells a.1 a.2 →
        getCell (moveTile cells score c a brk).1 a.1 a.2 = getCell cells a.1 a.2 + 1
        ∧ getCell (moveTile cells score c a brk).1 c.1 c.2 = 0
        ∧ (moveTile cells score c a brk).2.1
            = score + (if getCell cells a.1 a.2 + 1 ≤ 17
                then 2 ^ (getCell cells a.1 a.2 + 1) else 0))
    ∧ (getCell cells c.1 c.2 ≠ 0 → brk = false → getCell cells a.1 a.2 ≠ 0 →
        getCell cells c.1 c.2 ≠ getCell cells a.1 a.2 →
        getCell (moveTile cells score c a brk).1 c.1 c.2 = getCell cells c.1 c.2
        ∧ getCell (moveTile cells score c a brk).1 a.1 a.2 = getCell cells a.1 a.2
        ∧ (moveTile cells score c a brk).2.1 = score) := by
  have hio : c.1 * 4 + c.2 ≠ a.1 * 4 + a.2 := by
    intro h
    apply hne
    have h1 : c.1 = a.1 := by omega
    have h2 : c.2 = a.2 := by omega
    rw [h1, h2]
  obtain ⟨hs, _, hA, hC, _⟩ :=
    moveTile_spec cells score c a brk (by omega) (by omega) hio
  refine ⟨?_, ?_, ?_, ?_⟩
  · intro h
    have hb : getCell cells c.1 c.2 = 0 ∨ brk = true := h
    refine ⟨?_, ?_, ?_⟩
    · rw [hC, if_pos hb]
    · rw [hA, if_pos hb]
    · rw [hs]
      have : ¬(getCell cells c.1 c.2 = getCell cells a.1 a.2
          ∧ getCell cells c.1 c.2 ≠ 0 ∧ brk = false) := by
        rcases h with h | h
        · rintro ⟨_, hne0, _⟩; exact hne0 h
        · rintro ⟨_, _, hf⟩; rw [h] at hf; cases hf
      rw [if_neg this]
      omega
  · intro h0 hbf hadj
    have hnb : ¬(getCell cells c.1 c.2 = 0 ∨ brk = true) := by
      rintro (h | h)
      · exact h0 h
      · rw [hbf] at h; cases h
    refine ⟨?_, ?_, ?_⟩
    · rw [hA, if_neg hnb, if_pos hadj]
    · rw [hC, if_neg hnb, if_pos (Or.inl hadj)]
    · rw [hs]
      have : ¬(getCell cells c.1 c.2 = getCell cells a.1 a.2
          ∧ getCell cells c.1 c.2 ≠ 0 ∧ brk = false) := by
        rintro ⟨he, hne0, _⟩
        rw [hadj] at he
        exact hne0 he
      rw [if_neg this]
      omega
  · intro h0 hbf hadj heq
    have hnb : ¬(getCell cells c.1 c.2 = 0 ∨ brk = true) := by
      rintro (h | h)
      · exact h0 h
      · rw [hbf] at h; cases h
    refine ⟨?_, ?_, ?_⟩
    · rw [hA, if_neg hnb, if_neg hadj, if_pos heq]
    · rw [hC, if_neg hnb, if_pos (Or.inr heq)]
    · rw [hs, if_pos ⟨heq, h0, hbf⟩, pow2_eq]
      have hiff : (1 ≤ getCell cells a.1 a.2 + 1 ∧ getCell cells a.1 a.2 + 1 ≤ 17)
          ↔ getCell cells a.1 a.2 + 1 ≤ 17 := by omega
      rw [if_congr hiff rfl rfl]
  · intro h0 hbf hadj hneq
    have hnb : ¬(getCell cells c.1 c.2 = 0 ∨ brk = true) := by
      rintro (h | h)
      · exact h0 h
      · rw [hbf] at h; cases h
    refine ⟨?_, ?_, ?_⟩
    · rw [hC, if_neg hnb, if_neg (by rintro (h | h) <;> [exact hadj h; exact hneq h])]
    · rw [hA, if_neg hnb, if_neg hadj, if_neg hneq]
    · rw [hs, if_neg (by rintro ⟨he, _, _⟩; exact hneq he)]
      omega

/-- Witness for C2 (amended): a concrete merge of two cells of code 1
increases the score by 2^2 = 4 and writes code 2 into the neighbor. -/
theorem moveTile_cases_witness :
    getCell (moveTile [1, 0, 0, 0, 1, 0, 0, 0, 0, 0, 0, 0, 0, 0, 0, 0] 0 (1, 0) (0, 0) false).1
        0 0 = getCell [1, 0, 0, 0, 1, 0, 0, 0, 0, 0, 0, 0, 0, 0, 0, 0] 0 0 + 1
      ∧ getCell (moveTile [1, 0, 0, 0, 1, 0, 0, 0, 0, 0, 0, 0, 0, 0, 0, 0] 0 (1, 0) (0, 0) false).1
          1 0 = 0
      ∧ (moveTile [1, 0, 0, 0, 1, 0, 0, 0, 0, 0, 0, 0, 0, 0, 0, 0] 0 (1, 0) (0, 0) false).2.1
          = 0 + (if getCell [1, 0, 0, 0, 1, 0, 0, 0, 0, 0, 0, 0, 0, 0, 0, 0] 0 0 + 1 ≤ 17
              then 2 ^ (getCell [1, 0, 0, 0, 1, 0, 0, 0, 0, 0, 0, 0, 0, 0, 0, 0] 0 0 + 1) else 0) :=
  (moveTile_cases [1, 0, 0, 0, 1, 0, 0, 0, 0, 0, 0, 0, 0, 0, 0, 0] 0 (1, 0) (0, 0) false
    (by decide) (by decide) (by decide) (by decide) (by decide) (by decide)).2.2.1
    (by decide) (by decide) (by decide) (by decide)

/-- C6 counterexample: sliding a tile into an empty neighbor returns
false although the neighbor is non-empty after the step, refuting the
claim that the returned boolean equals "neighbor non-empty after the
step". -/
theorem moveTile_ret_counterexample :
    ¬(((moveTile [0, 0, 0, 0, 1, 0, 0, 0, 0, 0, 0, 0, 0, 0, 0, 0] 0 (1, 0) (0, 0) false).2.2
          = true)
        ↔ getCell
            (moveTile [0, 0, 0, 0, 1, 0, 0, 0, 0, 0, 0, 0, 0, 0, 0, 0] 0 (1, 0) (0, 0) false).1
            0 0 ≠ 0) := by
  decide

/-- C6 (amended): for every pair of cells and every suppress-flag value,
the boolean returned by one merge step is true if and only if the
neighbor cell was non-empty before the step was applied. -/
theorem moveTile_ret_iff (cells : List Nat) (score : Nat) (c a : Nat × Nat) (brk : Bool) :
    ((moveTile cells score c a brk).2.2 = true ↔ getCell cells a.1 a.2 ≠ 0) := by
  simp [moveTile]

/-- C3 counterexample: applying moveUp to the concrete scenario board
yields the board the claim states, but the score increases by 8 (two
merges, each contributing 2^2 = 4), not by 4. -/
theorem moveUp_scenario_score_counterexample :
    (Board.moveUp ⟨[1, 1, 1, 1, 1, 0, 0, 0, 1, 0, 0, 0, 1, 0, 0, 0], false, 0⟩).cells
        = [2, 1, 1, 1, 2, 0, 0, 0, 0, 0, 0, 0, 0, 0, 0, 0]
      ∧ (Board.moveUp ⟨[1, 1, 1, 1, 1, 0, 0, 0, 1, 0, 0, 0, 1, 0, 0, 0], false, 0⟩).score = 8
      ∧ (8 : Nat) ≠ 0 + 4 := by
  decide

/-- C3 (amended): from the board of codes
[[1,1,1,1],[1,0,0,0],[1,0,0,0],[1,0,0,0]] with score 0 and ended false,
moveUp yields [[2,1,1,1],[2,0,0,0],[0,0,0,0],[0,0,0,0]] with the score
increased by 8 (two merges of 2^2 = 4 each) and ended still false, and a
second moveUp from that state yields
[[3,1,1,1],[0,0,0,0],[0,0,0,0],[0,0,0,0]]. -/
theorem moveUp_scenario :
    Board.moveUp ⟨[1, 1, 1, 1, 1, 0, 0, 0, 1, 0, 0, 0, 1, 0, 0, 0], false, 0⟩
        = ⟨[2, 1, 1, 1, 2, 0, 0, 0, 0, 0, 0, 0, 0, 0, 0, 0], false, 8⟩
      ∧ Board.moveUp ⟨[2, 1, 1, 1, 2, 0, 0, 0, 0, 0, 0, 0, 0, 0, 0, 0], false, 8⟩
        = ⟨[3, 1, 1, 1, 0, 0, 0, 0, 0, 0, 0, 0, 0, 0, 0, 0], false, 16⟩ := by
  decide

/-! ### Tile-placement lemmas -/

theorem getD_set_ite (l : List Nat) (m n v : Nat) :
    (l.set m v).getD n 0 = if m = n ∧ m < l.length then v else l.getD n 0 := by
  by_cases h1 : m = n
  · subst h1
    by_cases h2 : m < l.length
    · rw [if_pos ⟨rfl, h2⟩, getD_set_self l m v h2]
    · rw [if_neg (fun h => h2 h.2),
        List.getD_eq_default _ _ (by rw [List.length_set]; omega),
        List.getD_eq_default _ _ (by omega)]
  · rw [if_neg (fun h => h1 h.1), getD_set_ne l m n v h1]

theorem getCell_setCell_ite (cells : List Nat) (i j i' j' v : Nat) :
    getCell (setCell cells i j v) i' j'
      = if i * 4 + j = i' * 4 + j' ∧ i * 4 + j < cells.length then v
        else getCell cells i' j' :=
  getD_set_ite cells _ _ v

set_option maxHeartbeats 3200000 in
theorem placeFold_getCell (cells : List Nat) (r c num : Nat) (hlen : cells.length = 16)
    (i j : Nat) (hi : i < 4) (hj : j < 4) :
    getCell (placeFold r c num cells) i j
      = if r = i ∧ c = j then num else getCell cells i j := by
  unfold placeFold
  have h4 : List.range 4 = [0, 1, 2, 3] := rfl
  rw [h4]
  simp only [List.foldl_cons, List.foldl_nil]
  interval_cases i <;> interval_cases j <;>
    simp [getCell_setCell_ite, setCell_length, hlen]

theorem placeFold_length (cells : List Nat) (r c num : Nat) :
    (placeFold r c num cells).length = cells.length := by
  unfold placeFold
  have h4 : List.range 4 = [0, 1, 2, 3] := rfl
  rw [h4]
  simp only [List.foldl_cons, List.foldl_nil, setCell_length]

theorem newTile_eq (b : Board) (r c num : Nat) (h0 : 0 < num)
    (hok : ∀ i ∈ List.range 4, ∀ j ∈ List.range 4, r = i ∧ c = j → getCell b.cells i j = 0) :
    newTile b r c num = some (placedBoard b r c num) := by
  unfold newTile
  rw [if_pos h0, if_pos hok]

theorem placedBoard_score (b : Board) (r c num : Nat) :
    (placedBoard b r c num).score = b.score := by
  simp only [placedBoard]

theorem placedBoard_cells (b : Board) (r c num : Nat) :
    (placedBoard b r c num).cells = placeFold r c num b.cells := by
  simp only [placedBoard]

theorem placedBoard_ended (b : Board) (r c num : Nat) :
    (placedBoard b r c num).ended = !hasNextMove (placedBoard b r c num).cells := by
  simp only [placedBoard]

theorem newTile_some_spec (b : Board) (r c num : Nat) (hlen : b.cells.length = 16)
    (h0 : 0 < num)
    (hok : ∀ i ∈ List.range 4, ∀ j ∈ List.range 4, r = i ∧ c = j → getCell b.cells i j = 0) :
    ∃ b', newTile b r c num = some b'
      ∧ b'.score = b.score
      ∧ b'.cells.length = 16
      ∧ (∀ i j, i < 4 → j < 4 →
          getCell b'.cells i j = if r = i ∧ c = j then num else getCell b.cells i j)
      ∧ b'.ended = !hasNextMove b'.cells := by
  refine ⟨placedBoard b r c num, newTile_eq b r c num h0 hok, placedBoard_score b r c num,
    ?_, ?_, placedBoard_ended b r c num⟩
  · rw [placedBoard_cells, placeFold_length]
    exact hlen
  · intro i j hi hj
    rw [placedBoard_cells]
    exact placeFold_getCell b.cells r c num hlen i j hi hj

theorem newTile_none_of_zero (b : Board) (r c : Nat) : newTile b r c 0 = none := by
  simp [newTile]

theorem newTile_none_of_occupied (b : Board) (r c num : Nat) (hr : r < 4) (hc : c < 4)
    (hocc : getCell b.cells r c ≠ 0) : newTile b r c num = none := by
  unfold newTile
  by_cases h0 : 0 < num
  · rw [if_pos h0, if_neg]
    intro hall
    exact hocc (hall r (List.mem_range.mpr hr) c (List.mem_range.mpr hc) ⟨rfl, rfl⟩)
  · rw [if_neg h0]

/-! ### Contract-layer lemmas -/

theorem assertSignature_eq (s : Game2048) (pk : Nat) (hdone : s.gameDone = false)
    (hpk : pk = s.player) :
    Game2048.assertSignature s pk true = some (decodeBoard s.boardField) := by
  simp [Game2048.assertSignature, hdone, hpk]

theorem assertSignature_some (s : Game2048) (pk : Nat) (sig : Bool) (b : Board)
    (h : Game2048.assertSignature s pk sig = some b) : b = decodeBoard s.boardField := by
  unfold Game2048.assertSignature at h
  split_ifs at h with h1 h2 h3
  · exact (Option.some.inj h).symm
  all_goals simp at h

theorem assertSignature_none_of_done (s : Game2048) (pk : Nat) (sig : Bool)
    (h : s.gameDone = true) : Game2048.assertSignature s pk sig = none := by
  unfold Game2048.assertSignature
  rw [if_neg (by rw [h]; simp)]

theorem addTile_some (s : Game2048) (pk : Nat) (sig : Bool) (r c : Nat) (s' : Game2048)
    (h : Game2048.addTile s pk sig r c = some s') :
    ∃ b', newTile (decodeBoard s.boardField) r c 1 = some b'
      ∧ s' = { s with boardField := b'.serialize, gameDone := !hasNextMove b'.cells } := by
  unfold Game2048.addTile at h
  cases has : Game2048.assertSignature s pk sig with
  | none => rw [has] at h; simp at h
  | some b =>
    have hb := assertSignature_some s pk sig b has
    subst hb
    rw [has] at h
    simp only [Option.some_bind] at h
    cases hnt : newTile (decodeBoard s.boardField) r c 1 with
    | none => rw [hnt] at h; simp at h
    | some b' =>
      rw [hnt] at h
      simp only [Option.map_some'] at h
      exact ⟨b', rfl, (Option.some.inj h).symm⟩

theorem moveUp_some (s : Game2048) (pk : Nat) (sig : Bool) (s' : Game2048)
    (h : Game2048.moveUp s pk sig = some s') :
    s' = { s with boardField := (Board.moveUp (decodeBoard s.boardField)).serialize
                  gameDone := !hasNextMove (Board.moveUp (decodeBoard s.boardField)).cells } := by
  unfold Game2048.moveUp at h
  cases has : Game2048.assertSignature s pk sig with
  | none => rw [has] at h; simp at h
  | some b =>
    have hb := assertSignature_some s pk sig b has
    subst hb
    rw [has] at h
    simp only [Option.map_some'] at h
    exact (Option.some.inj h).symm

theorem moveDown_some (s : Game2048) (pk : Nat) (sig : Bool) (s' : Game2048)
    (h : Game2048.moveDown s pk sig = some s') :
    s' = { s with boardField := (Board.moveDown (decodeBoard s.boardField)).serialize
                  gameDone := !hasNextMove (Board.moveDown (decodeBoard s.boardField)).cells } := by
  unfold Game2048.moveDown at h
  cases has : Game2048.assertSignature s pk sig with
  | none => rw [has] at h; simp at h
  | some b =>
    have hb := assertSignature_some s pk sig b has
    subst hb
    rw [has] at h
    simp only [Option.map_some'] at h
    exact (Option.some.inj h).symm

theorem moveLeft_some (s : Game2048) (pk : Nat) (sig : Bool) (s' : Game2048)
    (h : Game2048.moveLeft s pk sig = some s') :
    s' = { s with boardField := (Board.moveLeft (decodeBoard s.boardField)).serialize
                  gameDone := !hasNextMove (Board.moveLeft (decodeBoard s.boardField)).cells } := by
  unfold Game2048.moveLeft at h
  cases has : Game2048.assertSignature s pk sig with
  | none => rw [has] at h; simp at h
  | some b =>
    have hb := assertSignature_some s pk sig b has
    subst hb
    rw [has] at h
    simp only [Option.map_some'] at h
    exact (Option.some.inj h).symm

theorem moveRight_some (s : Game2048) (pk : Nat) (sig : Bool) (s' : Game2048)
    (h : Game2048.moveRight s pk sig = some s') :
    s' = { s with boardField := (Board.moveRight (decodeBoard s.boardField)).serialize
                  gameDone := !hasNextMove (Board.moveRight (decodeBoard s.boardField)).cells } := by
  unfold Game2048.moveRight at h
  cases has : Game2048.assertSignature s pk sig with
  | none => rw [has] at h; simp at h
  | some b =>
    have hb := assertSignature_some s pk sig b has
    subst hb
    rw [has] at h
    simp only [Option.map_some'] at h
    exact (Option.some.inj h).symm

theorem forall_mem_of_getCell (xs : List Nat) (hlen : xs.length = 16) (P : Nat → Prop)
    (h : ∀ i j, i < 4 → j < 4 → P (getCell xs i j)) : ∀ v ∈ xs, P v := by
  intro v hv
  obtain ⟨p, hp, hev⟩ := List.mem_iff_getElem.mp hv
  have hpp : p / 4 * 4 + p % 4 = p := by omega
  have hlt : p < 16 := by omega
  have hx := h (p / 4) (p % 4) (by omega) (by omega)
  rw [getCell, hpp, List.getD_eq_getElem _ _ (by omega)] at hx
  rw [← hev]
  exact hx

/-- C4: for every board and in-range target cell, tile placement requires
the placed magnitude code to be positive and fails (aborting the whole
transition, so no part of the state is committed) whenever the targeted
cell holds a nonzero code; when the targeted cell is empty and the code is
positive, exactly that one cell is set to the magnitude code, every other
cell is unchanged, and the score is unchanged. -/
theorem newTile_cases (b : Board) (r c num : Nat) (hlen : b.cells.length = 16)
    (hr : r < 4) (hc : c < 4) :
    (num = 0 → newTile b r c num = none)
    ∧ (getCell b.cells r c ≠ 0 → newTile b r c num = none)
    ∧ (0 < num → getCell b.cells r c = 0 →
        ∃ b', newTile b r c num = some b'
          ∧ b'.score = b.score
          ∧ getCell b'.cells r c = num
          ∧ ∀ i j, i < 4 → j < 4 → (i, j) ≠ (r, c) →
              getCell b'.cells i j = getCell b.cells i j) := by
  refine ⟨?_, ?_, ?_⟩
  · intro h
    subst h
    exact newTile_none_of_zero b r c
  · intro h
    exact newTile_none_of_occupied b r c num hr hc h
  · intro h0 hemp
    have hok : ∀ i ∈ List.range 4, ∀ j ∈ List.range 4, r = i ∧ c = j →
        getCell b.cells i j = 0 := by
      intro i _ j _ hij
      rw [← hij.1, ← hij.2]
      exact hemp
    refine ⟨placedBoard b r c num, newTile_eq b r c num h0 hok,
      placedBoard_score b r c num, ?_, ?_⟩
    · rw [placedBoard_cells, placeFold_getCell b.cells r c num hlen r c hr hc,
        if_pos ⟨rfl, rfl⟩]
    · intro i j hi hj hne
      rw [placedBoard_cells, placeFold_getCell b.cells r c num hlen i j hi hj, if_neg]
      rintro ⟨h1, h2⟩
      exact hne (by rw [← h1, ← h2])

/-- Witness for C4: a zero magnitude code is rejected on an empty board,
and placing on an occupied cell is rejected. -/
theorem newTile_cases_witness :
    newTile ⟨List.replicate 16 0, false, 0⟩ 2 3 0 = none
      ∧ newTile ⟨[7, 0, 0, 0, 0, 0, 0, 0, 0, 0, 0, 0, 0, 0, 0, 0], false, 0⟩ 0 0 5 = none :=
  ⟨(newTile_cases ⟨List.replicate 16 0, false, 0⟩ 2 3 0 (by decide) (by decide) (by decide)).1
      rfl,
    (newTile_cases ⟨[7, 0, 0, 0, 0, 0, 0, 0, 0, 0, 0, 0, 0, 0, 0, 0], false, 0⟩ 0 0 5
      (by decide) (by decide) (by decide)).2.1 (by decide)⟩

/-- C10: when addTile is called with a row or column outside the 4 by 4
range and the signature, player and game-phase checks pass, every per-cell
occupancy assertion is vacuously satisfied, the call succeeds, no decoded
cell of the board (and not the score or the player) is modified, and the
only effect is re-evaluating the gameDone flag from hasNextMove. -/
theorem addTile_out_of_range (s : Game2048) (pk r c : Nat)
    (hoor : 4 ≤ r ∨ 4 ≤ c) (hdone : s.gameDone = false) (hpk : pk = s.player) :
    ∃ f, Game2048.addTile s pk true r c
        = some { s with boardField := f
                        gameDone := !hasNextMove (decodeBoard s.boardField).cells }
      ∧ (decodeBoard f).cells = (decodeBoard s.boardField).cells
      ∧ (decodeBoard f).score = (decodeBoard s.boardField).score := by
  have hlen : (decodeBoard s.boardField).cells.length = 16 := decodeBoard_cells_length _
  have hok : ∀ i ∈ List.range 4, ∀ j ∈ List.range 4, r = i ∧ c = j →
      getCell (decodeBoard s.boardField).cells i j = 0 := by
    intro i hi j hj hij
    exfalso
    obtain ⟨h1, h2⟩ := hij
    have hi4 := List.mem_range.mp hi
    have hj4 := List.mem_range.mp hj
    subst h1
    subst h2
    rcases hoor with h | h <;> omega
  have heqn := newTile_eq (decodeBoard s.boardField) r c 1 (by omega) hok
  have hcells : placeFold r c 1 (decodeBoard s.boardField).cells
      = (decodeBoard s.boardField).cells := by
    apply List.ext_getElem
    · rw [placeFold_length]
    · intro p h1 h2
      have hp16 : p < 16 := by
        rw [placeFold_length, hlen] at h1
        exact h1
      have hchar := placeFold_getCell (decodeBoard s.boardField).cells r c 1 hlen
        (p / 4) (p % 4) (by omega) (by omega)
      rw [if_neg (by rintro ⟨ha, hb⟩; rcases hoor with h | h <;> omega)] at hchar
      have hpp : p / 4 * 4 + p % 4 = p := by omega
      rw [getCell, getCell, hpp] at hchar
      rw [List.getD_eq_getElem _ _ (by rw [placeFold_length, hlen]; exact hp16),
        List.getD_eq_getElem _ _ (by rw [hlen]; exact hp16)] at hchar
      exact hchar
  have hpb : (placedBoard (decodeBoard s.boardField) r c 1).cells
      = (decodeBoard s.boardField).cells := by
    rw [placedBoard_cells, hcells]
  have haddt : Game2048.addTile s pk true r c
      = some { s with
          boardField := (placedBoard (decodeBoard s.boardField) r c 1).serialize
          gameDone := !hasNextMove (placedBoard (decodeBoard s.boardField) r c 1).cells } := by
    unfold Game2048.addTile
    rw [assertSignature_eq s pk hdone hpk]
    simp only [Option.some_bind]
    rw [heqn]
    simp only [Option.map_some']
  rw [hpb] at haddt
  have hdec1 : (decodeBoard (placedBoard (decodeBoard s.boardField) r c 1).serialize).cells
      = (decodeBoard s.boardField).cells := by
    rw [decode_serialize_cells _ (by rw [hpb, hlen])
      (by rw [hpb]; exact decodeBoard_cells_lt _), hpb]
  have hdec2 : (decodeBoard (placedBoard (decodeBoard s.boardField) r c 1).serialize).score
      = (decodeBoard s.boardField).score := by
    rw [decode_serialize_score _ (by rw [hpb, hlen])
      (by rw [placedBoard_score]; exact decodeBoard_score_lt _), placedBoard_score]
  exact ⟨(placedBoard (decodeBoard s.boardField) r c 1).serialize, haddt, hdec1, hdec2⟩

/-- Witness for C10: an out-of-range placement at row 7 on an empty board
is accepted. -/
theorem addTile_out_of_range_witness :
    Game2048.addTile ⟨0, false, 5⟩ 5 true 7 0 ≠ none := by
  obtain ⟨s1, hs1, _⟩ :=
    addTile_out_of_range ⟨0, false, 5⟩ 5 7 0 (Or.inl (by decide)) rfl rfl
  rw [hs1]
  simp

/-- C5: once the persisted gameDone flag is true (which is what a mutation
stores when hasNextMove reports no legal move), every subsequent moveUp,
moveDown, moveLeft, moveRight, addTile and endGame call on the contract is
rejected by the assertion in assertSignature and commits no state change;
only startGame is accepted from that state. -/
theorem terminal_rejects (s : Game2048) (h : s.gameDone = true) :
    ∀ pk r c p : Nat, ∀ sig : Bool,
      Game2048.moveUp s pk sig = none
      ∧ Game2048.moveDown s pk sig = none
      ∧ Game2048.moveLeft s pk sig = none
      ∧ Game2048.moveRight s pk sig = none
      ∧ Game2048.addTile s pk sig r c = none
      ∧ Game2048.endGame s pk sig = none
      ∧ Game2048.startGame s p = some ⟨0, false, p⟩ := by
  intro pk r c p sig
  have ha := assertSignature_none_of_done s pk sig h
  refine ⟨?_, ?_, ?_, ?_, ?_, ?_, ?_⟩
  · unfold Game2048.moveUp
    rw [ha]
    rfl
  · unfold Game2048.moveDown
    rw [ha]
    rfl
  · unfold Game2048.moveLeft
    rw [ha]
    rfl
  · unfold Game2048.moveRight
    rw [ha]
    rfl
  · unfold Game2048.addTile
    rw [ha]
    rfl
  · unfold Game2048.endGame
    rw [ha]
    rfl
  · unfold Game2048.startGame
    rw [if_pos h]

/-- Witness for C5 at a concrete finished state. -/
theorem terminal_rejects_witness :
    Game2048.moveUp ⟨123, true, 9⟩ 9 true = none
      ∧ Game2048.moveDown ⟨123, true, 9⟩ 9 true = none
      ∧ Game2048.moveLeft ⟨123, true, 9⟩ 9 true = none
      ∧ Game2048.moveRight ⟨123, true, 9⟩ 9 true = none
      ∧ Game2048.addTile ⟨123, true, 9⟩ 9 true 0 0 = none
      ∧ Game2048.endGame ⟨123, true, 9⟩ 9 true = none
      ∧ Game2048.startGame ⟨123, true, 9⟩ 4 = some ⟨0, false, 4⟩ :=
  terminal_rejects ⟨123, true, 9⟩ rfl 9 0 0 4 true

/-- C7: endGame with a valid signature from the registered player while
the game is in progress sets the gameDone flag to true regardless of the
board contents (the packed board field is arbitrary and left untouched);
attempted while gameDone is already true, the call is rejected and no
state changes. -/
theorem endGame_spec (s : Game2048) (pk : Nat) :
    (s.gameDone = false → pk = s.player →
        Game2048.endGame s pk true = some { s with gameDone := true })
      ∧ (s.gameDone = true → ∀ sig : Bool, Game2048.endGame s pk sig = none) := by
  constructor
  · intro hdone hpk
    unfold Game2048.endGame
    rw [assertSignature_eq s pk hdone hpk]
    rfl
  · intro hdone sig
    unfold Game2048.endGame
    rw [assertSignature_none_of_done s pk sig hdone]
    rfl

/-- Witness for C7 at concrete states. -/
theorem endGame_spec_witness :
    Game2048.endGame ⟨42, false, 3⟩ 3 true = some ⟨42, true, 3⟩
      ∧ Game2048.endGame ⟨42, true, 3⟩ 3 true = none :=
  ⟨(endGame_spec ⟨42, false, 3⟩ 3).1 rfl rfl, (endGame_spec ⟨42, true, 3⟩ 3).2 rfl true⟩

theorem decodeBoard_getCell_lt (f : Nat) (i j : Nat) (hi : i < 4) (hj : j < 4) :
    getCell (decodeBoard f).cells i j < 32 := by
  have hlen := decodeBoard_cells_length f
  have hm : getCell (decodeBoard f).cells i j ∈ (decodeBoard f).cells := by
    rw [getCell, List.getD_eq_getElem _ _ (by omega)]
    exact List.getElem_mem _
  exact decodeBoard_cells_lt f _ hm

/-- C9: the public placement entry point addTile always places the fixed
exponent code 1 (displayed tile value 2) at the requested cell; the
magnitude is not a caller-supplied parameter of the contract method, so no
placement through the contract can introduce a tile other than 2. -/
theorem addTile_places_one (s : Game2048) (pk : Nat) (sig : Bool) (r c : Nat) (s' : Game2048)
    (hr : r < 4) (hc : c < 4) (h : Game2048.addTile s pk sig r c = some s') :
    getCell (decodeBoard s'.boardField).cells r c = 1 := by
  obtain ⟨b', hnt, hs'⟩ := addTile_some s pk sig r c s' h
  unfold newTile at hnt
  rw [if_pos (by omega : (0 : Nat) < 1)] at hnt
  by_cases hok : ∀ i ∈ List.range 4, ∀ j ∈ List.range 4, r = i ∧ c = j →
      getCell (decodeBoard s.boardField).cells i j = 0
  · rw [if_pos hok] at hnt
    have hb' : b' = placedBoard (decodeBoard s.boardField) r c 1 := (Option.some.inj hnt).symm
    subst hb'
    subst hs'
    have hbf : ({ s with
        boardField := (placedBoard (decodeBoard s.boardField) r c 1).serialize
        gameDone := !hasNextMove (placedBoard (decodeBoard s.boardField) r c 1).cells }
          : Game2048).boardField
        = (placedBoard (decodeBoard s.boardField) r c 1).serialize := by
      simp
    rw [hbf]
    have hlen := decodeBoard_cells_length s.boardField
    have hlen' : (placedBoard (decodeBoard s.boardField) r c 1).cells.length = 16 := by
      rw [placedBoard_cells, placeFold_length, hlen]
    have hbound : ∀ v ∈ (placedBoard (decodeBoard s.boardField) r c 1).cells, v < 32 := by
      apply forall_mem_of_getCell _ hlen'
      intro i j hi hj
      rw [placedBoard_cells, placeFold_getCell _ _ _ _ hlen i j hi hj]
      split_ifs with hij
      · omega
      · exact decodeBoard_getCell_lt s.boardField i j hi hj
    rw [decode_serialize_cells _ hlen' hbound, placedBoard_cells,
      placeFold_getCell _ _ _ _ hlen r c hr hc, if_pos ⟨rfl, rfl⟩]
  · rw [if_neg hok] at hnt
    simp at hnt

set_option maxRecDepth 10000 in
/-- Witness for C9: a concrete accepted placement at cell (1, 2) yields
decoded code 1 there. -/
theorem addTile_places_one_witness :
    Game2048.addTile ⟨0, false, 2⟩ 2 true 1 2
        = some ⟨Board.serialize ⟨[0, 0, 0, 0, 0, 0, 1, 0, 0, 0, 0, 0, 0, 0, 0, 0], false, 0⟩,
            false, 2⟩
      ∧ getCell
          (decodeBoard
            (Game2048.boardField
              ⟨Board.serialize ⟨[0, 0, 0, 0, 0, 0, 1, 0, 0, 0, 0, 0, 0, 0, 0, 0], false, 0⟩,
                false, 2⟩)).cells 1 2 = 1 :=
  ⟨by decide,
    addTile_places_one ⟨0, false, 2⟩ 2 true 1 2
      ⟨Board.serialize ⟨[0, 0, 0, 0, 0, 0, 1, 0, 0, 0, 0, 0, 0, 0, 0, 0], false, 0⟩, false, 2⟩
      (by decide) (by decide) (by decide)⟩

/-! ### Score monotonicity machinery -/

theorem foldl_measure_le {α β : Type} (m : α → Nat) (f : α → β → α)
    (h : ∀ x y, m x ≤ m (f x y)) : ∀ (l : List β) (x : α), m x ≤ m (l.foldl f x) := by
  intro l
  induction l with
  | nil => intro x; simp
  | cons y t ih => intro x; exact le_trans (h x y) (ih (f x y))

theorem foldl_preserve {α β : Type} (P : α → Prop) (f : α → β → α)
    (h : ∀ x y, P x → P (f x y)) : ∀ (l : List β) (x : α), P x → P (l.foldl f x) := by
  intro l
  induction l with
  | nil => intro x hx; simpa using hx
  | cons y t ih => intro x hx; exact ih (f x y) (h x y hx)

theorem moveTile_score_eq (cells : List Nat) (score : Nat) (c a : Nat × Nat) (brk : Bool) :
    (moveTile cells score c a brk).2.1
      = score + (if decide (getCell cells c.1 c.2 = getCell cells a.1 a.2)
            && !decide (getCell cells c.1 c.2 = 0) && !brk
          then pow2 (getCell cells a.1 a.2 + 1) else 0) := by
  simp only [moveTile]

theorem moveTile_score_le (cells : List Nat) (score : Nat) (c a : Nat × Nat) (brk : Bool) :
    score ≤ (moveTile cells score c a brk).2.1 := by
  rw [moveTile_score_eq]
  exact Nat.le_add_right _ _

theorem moveTile_length (cells : List Nat) (score : Nat) (c a : Nat × Nat) (brk : Bool) :
    (moveTile cells score c a brk).1.length = cells.length := by
  simp only [moveTile]
  rw [setCell_length, setCell_length]

theorem moveStep_score_le (acc : List Nat × Nat × Bool) (p : (Nat × Nat) × (Nat × Nat)) :
    acc.2.1 ≤ (moveStep acc p).2.1 := by
  unfold moveStep
  exact moveTile_score_le acc.1 acc.2.1 p.1 p.2 acc.2.2

theorem moveStep_length (acc : List Nat × Nat × Bool) (p : (Nat × Nat) × (Nat × Nat)) :
    (moveStep acc p).1.length = acc.1.length := by
  unfold moveStep
  exact moveTile_length acc.1 acc.2.1 p.1 p.2 acc.2.2

theorem runLine_score_proj (cs : List Nat × Nat) (pairs : List ((Nat × Nat) × (Nat × Nat))) :
    (runLine cs pairs).2 = (pairs.foldl moveStep (cs.1, cs.2, false)).2.1 := by
  simp only [runLine]

theorem runLine_cells_proj (cs : List Nat × Nat) (pairs : List ((Nat × Nat) × (Nat × Nat))) :
    (runLine cs pairs).1 = (pairs.foldl moveStep (cs.1, cs.2, false)).1 := by
  simp only [runLine]

theorem runLine_score_le (cs : List Nat × Nat) (pairs : List ((Nat × Nat) × (Nat × Nat))) :
    cs.2 ≤ (runLine cs pairs).2 := by
  rw [runLine_score_proj]
  have h := foldl_measure_le (fun acc : List Nat × Nat × Bool => acc.2.1) moveStep
    moveStep_score_le pairs (cs.1, cs.2, false)
  exact h

theorem runLine_length (cs : List Nat × Nat) (pairs : List ((Nat × Nat) × (Nat × Nat))) :
    (runLine cs pairs).1.length = cs.1.length := by
  rw [runLine_cells_proj]
  have h := foldl_preserve (fun acc : List Nat × Nat × Bool => acc.1.length = cs.1.length)
    moveStep (fun x y hx => by
      show (moveStep x y).1.length = cs.1.length
      rw [moveStep_length]
      exact hx) pairs (cs.1, cs.2, false) rfl
  exact h

theorem nested_score_le (f : Nat → Nat → List ((Nat × Nat) × (Nat × Nat)))
    (cs : List Nat × Nat) :
    cs.2 ≤ ((List.range 4).foldl
      (fun cs j => (List.range 3).foldl (fun cs t => runLine cs (f j t)) cs) cs).2 :=
  foldl_measure_le (fun p : List Nat × Nat => p.2) _
    (fun x j => foldl_measure_le (fun p : List Nat × Nat => p.2) _
      (fun y t => runLine_score_le y (f j t)) (List.range 3) x)
    (List.range 4) cs

theorem nested_length (f : Nat → Nat → List ((Nat × Nat) × (Nat × Nat)))
    (cs : List Nat × Nat) :
    ((List.range 4).foldl
      (fun cs j => (List.range 3).foldl (fun cs t => runLine cs (f j t)) cs) cs).1.length
      = cs.1.length :=
  foldl_preserve (fun p : List Nat × Nat => p.1.length = cs.1.length) _
    (fun x j hx => foldl_preserve (fun p : List Nat × Nat => p.1.length = cs.1.length) _
      (fun y t hy => by
        show (runLine y (f j t)).1.length = cs.1.length
        rw [runLine_length]
        exact hy) (List.range 3) x hx)
    (List.range 4) cs rfl

theorem moveUp_score (b : Board) : (Board.moveUp b).score = (moveUpCS (b.cells, b.score)).2 := by
  simp only [Board.moveUp]

theorem moveUp_cells (b : Board) : (Board.moveUp b).cells = (moveUpCS (b.cells, b.score)).1 := by
  simp only [Board.moveUp]

theorem moveDown_score (b : Board) :
    (Board.moveDown b).score = (moveDownCS (b.cells, b.score)).2 := by
  simp only [Board.moveDown]

theorem moveDown_cells (b : Board) :
    (Board.moveDown b).cells = (moveDownCS (b.cells, b.score)).1 := by
  simp only [Board.moveDown]

theorem moveLeft_score (b : Board) :
    (Board.moveLeft b).score = (moveLeftCS (b.cells, b.score)).2 := by
  simp only [Board.moveLeft]

theorem moveLeft_cells (b : Board) :
    (Board.moveLeft b).cells = (moveLeftCS (b.cells, b.score)).1 := by
  simp only [Board.moveLeft]

theorem moveRight_score (b : Board) :
    (Board.moveRight b).score = (moveRightCS (b.cells, b.score)).2 := by
  simp only [Board.moveRight]

theorem moveRight_cells (b : Board) :
    (Board.moveRight b).cells = (moveRightCS (b.cells, b.score)).1 := by
  simp only [Board.moveRight]

theorem moveUpCS_score_le (cs : List Nat × Nat) : cs.2 ≤ (moveUpCS cs).2 := by
  unfold moveUpCS
  exact nested_score_le (fun j t => upPairs j (t + 1)) cs

theorem moveDownCS_score_le (cs : List Nat × Nat) : cs.2 ≤ (moveDownCS cs).2 := by
  unfold moveDownCS
  exact nested_score_le (fun j t => downPairs j (2 - t)) cs

theorem moveLeftCS_score_le (cs : List Nat × Nat) : cs.2 ≤ (moveLeftCS cs).2 := by
  unfold moveLeftCS
  exact nested_score_le (fun i t => leftPairs i (t + 1)) cs

theorem moveRightCS_score_le (cs : List Nat × Nat) : cs.2 ≤ (moveRightCS cs).2 := by
  unfold moveRightCS
  exact nested_score_le (fun i t => rightPairs i (2 - t)) cs

theorem moveUpCS_length (cs : List Nat × Nat) : (moveUpCS cs).1.length = cs.1.length := by
  unfold moveUpCS
  exact nested_length (fun j t => upPairs j (t + 1)) cs

theorem moveDownCS_length (cs : List Nat × Nat) : (moveDownCS cs).1.length = cs.1.length := by
  unfold moveDownCS
  exact nested_length (fun j t => downPairs j (2 - t)) cs

theorem moveLeftCS_length (cs : List Nat × Nat) : (moveLeftCS cs).1.length = cs.1.length := by
  unfold moveLeftCS
  exact nested_length (fun i t => leftPairs i (t + 1)) cs

theorem moveRightCS_length (cs : List Nat × Nat) : (moveRightCS cs).1.length = cs.1.length := by
  unfold moveRightCS
  exact nested_length (fun i t => rightPairs i (2 - t)) cs

theorem newTile_some_inv (b : Board) (r c num : Nat) (b' : Board)
    (h : newTile b r c num = some b') : b' = placedBoard b r c num := by
  unfold newTile at h
  split_ifs at h with h1 h2
  · exact (Option.some.inj h).symm
  all_goals simp at h

set_option maxRecDepth 100000 in
/-- C8 counterexample: from a contract state whose decoded score is
2^31 - 1 and whose board allows one merge of two 2-tiles, the accepted
moveUp pushes the running score to 2^31 + 3, which no longer fits the
31-bit score field; the re-serialized state decodes to score 2^30 + 3,
strictly below the score before the move. -/
theorem score_decrease_counterexample :
    Game2048.moveUp
        ⟨Board.serialize ⟨[1, 0, 0, 0, 1, 0, 0, 0, 0, 0, 0, 0, 0, 0, 0, 0], false, 2 ^ 31 - 1⟩,
          false, 0⟩ 0 true
      = some
          ⟨Board.serialize ⟨[2, 0, 0, 0, 0, 0, 0, 0, 0, 0, 0, 0, 0, 0, 0, 0], false, 2 ^ 31 + 3⟩,
            false, 0⟩
      ∧ (decodeBoard
            (Board.serialize
              ⟨[2, 0, 0, 0, 0, 0, 0, 0, 0, 0, 0, 0, 0, 0, 0, 0], false, 2 ^ 31 + 3⟩)).score
        < (decodeBoard
            (Board.serialize
              ⟨[1, 0, 0, 0, 1, 0, 0, 0, 0, 0, 0, 0, 0, 0, 0, 0], false, 2 ^ 31 - 1⟩)).score := by
  decide

/-- C8 (amended): across every accepted move the persisted decoded score
is non-decreasing provided the running score after the move still fits
the 31-bit score field (below 2^31); across every accepted tile placement
it is non-decreasing unconditionally (placement never touches the score).
Without the bound the re-serialization truncates the score and it can
decrease. -/
theorem score_monotone (s : Game2048) (pk : Nat) (sig : Bool) (r c : Nat) :
    (∀ s', Game2048.moveUp s pk sig = some s' →
        (Board.moveUp (decodeBoard s.boardField)).score < 2 ^ 31 →
        (decodeBoard s.boardField).score ≤ (decodeBoard s'.boardField).score)
    ∧ (∀ s', Game2048.moveDown s pk sig = some s' →
        (Board.moveDown (decodeBoard s.boardField)).score < 2 ^ 31 →
        (decodeBoard s.boardField).score ≤ (decodeBoard s'.boardField).score)
    ∧ (∀ s', Game2048.moveLeft s pk sig = some s' →
        (Board.moveLeft (decodeBoard s.boardField)).score < 2 ^ 31 →
        (decodeBoard s.boardField).score ≤ (decodeBoard s'.boardField).score)
    ∧ (∀ s', Game2048.moveRight s pk sig = some s' →
        (Board.moveRight (decodeBoard s.boardField)).score < 2 ^ 31 →
        (decodeBoard s.boardField).score ≤ (decodeBoard s'.boardField).score)
    ∧ (∀ s', Game2048.addTile s pk sig r c = some s' →
        (decodeBoard s.boardField).score ≤ (decodeBoard s'.boardField).score) := by
  have hlen : (decodeBoard s.boardField).cells.length = 16 := decodeBoard_cells_length _
  refine ⟨?_, ?_, ?_, ?_, ?_⟩
  · intro s' h hlt
    have hs' := moveUp_some s pk sig s' h
    subst hs'
    have hbf : ({ s with
        boardField := (Board.moveUp (decodeBoard s.boardField)).serialize
        gameDone := !hasNextMove (Board.moveUp (decodeBoard s.boardField)).cells }
          : Game2048).boardField
        = (Board.moveUp (decodeBoard s.boardField)).serialize := by
      simp
    rw [hbf]
    have hlen' : (Board.moveUp (decodeBoard s.boardField)).cells.length = 16 := by
      rw [moveUp_cells, moveUpCS_length]
      exact hlen
    rw [decode_serialize_score _ hlen' hlt, moveUp_score]
    exact moveUpCS_score_le ((decodeBoard s.boardField).cells, (decodeBoard s.boardField).score)
  · intro s' h hlt
    have hs' := moveDown_some s pk sig s' h
    subst hs'
    have hbf : ({ s with
        boardField := (Board.moveDown (decodeBoard s.boardField)).serialize
        gameDone := !hasNextMove (Board.moveDown (decodeBoard s.boardField)).cells }
          : Game2048).boardField
        = (Board.moveDown (decodeBoard s.boardField)).serialize := by
      simp
    rw [hbf]
    have hlen' : (Board.moveDown (decodeBoard s.boardField)).cells.length = 16 := by
      rw [moveDown_cells, moveDownCS_length]
      exact hlen
    rw [decode_serialize_score _ hlen' hlt, moveDown_score]
    exact moveDownCS_score_le ((decodeBoard s.boardField).cells, (decodeBoard s.boardField).score)
  · intro s' h hlt
    have hs' := moveLeft_some s pk sig s' h
    subst hs'
    have hbf : ({ s with
        boardField := (Board.moveLeft (decodeBoard s.boardField)).serialize
        gameDone := !hasNextMove (Board.moveLeft (decodeBoard s.boardField)).cells }
          : Game2048).boardField
        = (Board.moveLeft (decodeBoard s.boardField)).serialize := by
      simp
    rw [hbf]
    have hlen' : (Board.moveLeft (decodeBoard s.boardField)).cells.length = 16 := by
      rw [moveLeft_cells, moveLeftCS_length]
      exact hlen
    rw [decode_serialize_score _ hlen' hlt, moveLeft_score]
    exact moveLeftCS_score_le ((decodeBoard s.boardField).cells, (decodeBoard s.boardField).score)
  · intro s' h hlt
    have hs' := moveRight_some s pk sig s' h
    subst hs'
    have hbf : ({ s with
        boardField := (Board.moveRight (decodeBoard s.boardField)).serialize
        gameDone := !hasNextMove (Board.moveRight (decodeBoard s.boardField)).cells }
          : Game2048).boardField
        = (Board.moveRight (decodeBoard s.boardField)).serialize := by
      simp
    rw [hbf]
    have hlen' : (Board.moveRight (decodeBoard s.boardField)).cells.length = 16 := by
      rw [moveRight_cells, moveRightCS_length]
      exact hlen
    rw [decode_serialize_score _ hlen' hlt, moveRight_score]
    exact moveRightCS_score_le ((decodeBoard s.boardField).cells, (decodeBoard s.boardField).score)
  · intro s' h
    obtain ⟨b', hnt, hs'⟩ := addTile_some s pk sig r c s' h
    have hb' := newTile_some_inv _ _ _ _ _ hnt
    subst hb'
    subst hs'
    have hbf : ({ s with
        boardField := (placedBoard (decodeBoard s.boardField) r c 1).serialize
        gameDone := !hasNextMove (placedBoard (decodeBoard s.boardField) r c 1).cells }
          : Game2048).boardField
        = (placedBoard (decodeBoard s.boardField) r c 1).serialize := by
      simp
    rw [hbf]
    have hlen' : (placedBoard (decodeBoard s.boardField) r c 1).cells.length = 16 := by
      rw [placedBoard_cells, placeFold_length]
      exact hlen
    have hsc : (placedBoard (decodeBoard s.boardField) r c 1).score < 2 ^ 31 := by
      rw [placedBoard_score]
      exact decodeBoard_score_lt _
    rw [decode_serialize_score _ hlen' hsc, placedBoard_score]

set_option maxRecDepth 100000 in
/-- Witness for C8 (amended): a concrete accepted moveUp whose running
score stays below 2^31 does not decrease the persisted score. -/
theorem score_monotone_witness :
    Game2048.moveUp
        ⟨Board.serialize ⟨[1, 0, 0, 0, 1, 0, 0, 0, 0, 0, 0, 0, 0, 0, 0, 0], false, 10⟩,
          false, 0⟩ 0 true
      = some ⟨Board.serialize ⟨[2, 0, 0, 0, 0, 0, 0, 0, 0, 0, 0, 0, 0, 0, 0, 0], false, 14⟩,
          false, 0⟩
      ∧ (decodeBoard
          (Game2048.boardField
            ⟨Board.serialize ⟨[1, 0, 0, 0, 1, 0, 0, 0, 0, 0, 0, 0, 0, 0, 0, 0], false, 10⟩,
              false, 0⟩)).score
        ≤ (decodeBoard
            (Game2048.boardField
              ⟨Board.serialize ⟨[2, 0, 0, 0, 0, 0, 0, 0, 0, 0, 0, 0, 0, 0, 0, 0], false, 14⟩,
                false, 0⟩)).score :=
  ⟨by decide,
    (score_monotone
        ⟨Board.serialize ⟨[1, 0, 0, 0, 1, 0, 0, 0, 0, 0, 0, 0, 0, 0, 0, 0], false, 10⟩,
          false, 0⟩ 0 true 0 0).1
      ⟨Board.serialize ⟨[2, 0, 0, 0, 0, 0, 0, 0, 0, 0, 0, 0, 0, 0, 0, 0], false, 14⟩, false, 0⟩
      (by decide) (by decide)⟩
